import Mathlib

/-!
Verification of the Wainlux K6 protocol stack (checksum and frame codec,
response classification, chunked transfer engine with retry/backoff,
command sequence statistics and bounds, and the engrave driver flow).

Bytes are modelled as natural numbers; every place the Python source masks
with `& 0xFF` the embedding takes `% 256` explicitly.
-/

namespace K6

/-- Equality on `Except` results is decidable when it is on both sides. -/
instance {ε α : Type} [DecidableEq ε] [DecidableEq α] : DecidableEq (Except ε α)
  | .error a, .error b =>
    if h : a = b then .isTrue (congrArg Except.error h)
    else .isFalse fun he => h (Except.error.inj he)
  | .error _, .ok _ => .isFalse fun he => Except.noConfusion he
  | .ok _, .error _ => .isFalse fun he => Except.noConfusion he
  | .ok a, .ok b =>
    if h : a = b then .isTrue (congrArg Except.ok h)
    else .isFalse fun he => h (Except.ok.inj he)

/-- Protocol constants from `protocol.py`. -/
def ACK : Nat := 0x09

def DATA_CHUNK : Nat := 1900

/-- `checksum(packet)`: two's complement 8-bit checksum,
`(-sum(packet[:-1])) & 0xFF` computed over naturals. -/
def checksum (packet : List Nat) : Nat :=
  (256 - packet.dropLast.sum % 256) % 256

/-- The packet body built by `build_data_packet` before the guard:
opcode `0x22`, big-endian 16-bit total length, payload, checksum byte. -/
def dataPacketCore (payload : List Nat) : List Nat :=
  let packetLen := payload.length + 4
  let body : List Nat := [0x22, (packetLen / 256) % 256, packetLen % 256] ++ payload
  body ++ [checksum (body ++ [0])]

/-- `build_data_packet(payload)`: raises `ValueError` on payloads above
`DATA_CHUNK` bytes, otherwise returns the framed packet. -/
def build_data_packet (payload : List Nat) : Except String (List Nat) :=
  if payload.length > DATA_CHUNK then .error "Payload too large"
  else .ok (dataPacketCore payload)

/-- Sliding-window heartbeat count: the source checks, for every index i in
range(0, len(rx)-3), whether rx[i:i+4] equals FF FF FF FE. -/
def heartbeatCount : List Nat → Nat
  | a :: b :: c :: d :: rest =>
      (if a = 0xFF ∧ b = 0xFF ∧ c = 0xFF ∧ d = 0xFE then 1 else 0)
        + heartbeatCount (b :: c :: d :: rest)
  | _ => 0

/-- `parse_response_frames(rx)`: (heartbeat count, ACK count, type string). -/
def parse_response_frames (rx : List Nat) : Nat × Nat × String :=
  if rx = [] then (0, 0, ("NONE"))
  else
    let hb := heartbeatCount rx
    let ack := rx.count ACK
    let typ : String :=
      if hb ≠ 0 ∧ ack ≠ 0 then ("HEARTBEAT+ACK")
      else if hb ≠ 0 then ("HEARTBEAT")
      else if ack ≠ 0 then ("ACK")
      else ("OTHER")
    (hb, ack, typ)

/-- The heartbeat wire pattern FF FF FF FE. -/
def hbPattern : List Nat := [0xFF, 0xFF, 0xFF, 0xFE]

/-- Observable transport effects of the transfer engine and of the driver:
a frame written to the wire, a sleep of so many seconds, or one invocation
of the completion watcher `wait_for_completion`. -/
inductive Ev
  | write (frame : List Nat)
  | sleep (seconds : ℚ)
  | wait
  deriving DecidableEq

/-- The frames a trace wrote, in order. -/
def writesOf (evs : List Ev) : List (List Nat) :=
  evs.filterMap fun e => match e with | .write p => some p | _ => none

/-- The sleep durations of a trace, in order. -/
def sleepsOf (evs : List Ev) : List ℚ :=
  evs.filterMap fun e => match e with | .sleep q => some q | _ => none

/-- Errors `burn_payload` can raise: the terminal chunk failure (its message
names the scanline index byte offset and retry budget), or the
`ValueError` that `build_data_packet` raises on an oversized chunk. -/
inductive BurnError
  | chunkFailed (lineIdx offset maxRetries : Nat)
  | payloadTooLarge
  deriving DecidableEq

/-- `0.1 * 2 ** (attempt - 1)` seconds of exponential backoff. -/
def backoff (attempt : Nat) : ℚ := (1 / 10) * 2 ^ (attempt - 1)

/-- The inner `while attempt < max_retries` loop of `burn_payload` for one
chunk.  `remaining` is the retry budget still open, `maxRetries - attempt`:
the loop guard `attempt < maxRetries` is exactly `0 < remaining`, and each
iteration increments `attempt` while `remaining` (the structural recursion
measure) decreases.  Each iteration writes the packet (`send_cmd` writes
before it reads) and consults the per-attempt device oracle `ok`; on
failure the attempt counter is incremented, the terminal `K6DeviceError` is
raised once it reaches `maxRetries`, and otherwise the engine sleeps
`0.1 * 2 ** (attempt - 1)` seconds and retries.  Returns the event trace
and, on normal exit, whether the chunk was counted (the loop broke on
success). -/
def retryChunkGo (ok : Nat → Bool) (maxRetries lineIdx offset : Nat)
    (pkt : List Nat) : Nat → Nat → List Ev × Except BurnError Bool
  | 0, _ => ([], .ok false)
  | remaining + 1, attempt =>
    if ok attempt then ([.write pkt], .ok true)
    else if maxRetries ≤ attempt + 1 then
      ([.write pkt], .error (.chunkFailed lineIdx offset maxRetries))
    else
      let rest := retryChunkGo ok maxRetries lineIdx offset pkt remaining (attempt + 1)
      (.write pkt :: .sleep (backoff (attempt + 1)) :: rest.1, rest.2)

/-- The retry loop entered with `attempt = 0`, budget `maxRetries`. -/
def retryChunk (ok : Nat → Bool) (maxRetries lineIdx offset : Nat)
    (pkt : List Nat) : List Ev × Except BurnError Bool :=
  retryChunkGo ok maxRetries lineIdx offset pkt maxRetries 0

/-- The `while offset < len(line)` loop of `burn_payload`: the
(offset, `line[offset : offset + DATA_CHUNK]`) pairs in emission order.
`fuel` bounds the iteration count (the offset grows by `DATA_CHUNK ≥ 1`
each pass, so `line.length` passes always suffice to leave the loop). -/
def splitLineGo (line : List Nat) : Nat → Nat → List (Nat × List Nat)
  | 0, _ => []
  | fuel + 1, offset =>
    if offset < line.length then
      (offset, (line.drop offset).take DATA_CHUNK)
        :: splitLineGo line fuel (offset + DATA_CHUNK)
    else []

/-- All pieces of one scanline, from offset 0. -/
def splitLine (line : List Nat) : List (Nat × List Nat) :=
  splitLineGo line line.length 0

/-- The (line index, offset, chunk) triples of a whole payload in emission
order, mirroring the two nested loops of `burn_payload`. -/
def chunksWithMeta (lines : List (List Nat)) : List (Nat × Nat × List Nat) :=
  lines.enum.foldr
    (fun p acc => ((splitLine p.2).map fun oc => (p.1, oc.1, oc.2)) ++ acc) []

/-- The `total_chunks` expression of `burn_payload`:
`sum((len(line) + DATA_CHUNK - 1) // DATA_CHUNK for line in payload_lines)`. -/
def totalChunks (lines : List (List Nat)) : Nat :=
  (lines.map fun line => (line.length + DATA_CHUNK - 1) / DATA_CHUNK).sum

/-- The outer loops of `burn_payload` over the chunk list: build the DATA
packet, run the retry loop, count the chunk on success; a raised error
aborts the whole transfer at once. -/
def runChunks (ok : Nat → Nat → Bool) (maxRetries : Nat) :
    List (Nat × Nat × List Nat) → Nat → Nat → List Ev × Except BurnError Nat
  | [], _, count => ([], .ok count)
  | (li, off, chunk) :: rest, chunkIdx, count =>
    match build_data_packet chunk with
    | .error _ => ([], .error .payloadTooLarge)
    | .ok pkt =>
      match retryChunk (ok chunkIdx) maxRetries li off pkt with
      | (evs, .error e) => (evs, .error e)
      | (evs, .ok counted) =>
        let next := runChunks ok maxRetries rest (chunkIdx + 1)
          (if counted then count + 1 else count)
        (evs ++ next.1, next.2)

/-- `burn_payload(transport, payload_lines, max_retries)` as a function of a
device-reply oracle `ok chunkIdx attempt` standing for the transport
responses: the event trace, and total chunks sent or the raised error. -/
def burn_payload (ok : Nat → Nat → Bool) (maxRetries : Nat)
    (lines : List (List Nat)) : List Ev × Except BurnError Nat :=
  runChunks ok maxRetries (chunksWithMeta lines) 0 0

/-- Big-endian 16-bit field, `(val >> 8) & 0xFF` then `val & 0xFF`. -/
def put_u16_be (val : Nat) : List Nat := [(val / 256) % 256, val % 256]

/-- Big-endian 32-bit field. -/
def put_u32_be (val : Nat) : List Nat :=
  [(val / 2 ^ 24) % 256, (val / 2 ^ 16) % 256, (val / 256) % 256, val % 256]

/-- `build_job_header_custom(...)`: the 38-byte JOB_HEADER (0x23) frame. -/
def build_job_header_custom (raster_w raster_h raster_power raster_depth
    vector_w vector_h total_size vector_power vector_depth point_count
    center_x center_y quality : Nat) : List Nat :=
  [0x23, 0x00, 38]
    ++ put_u16_be (total_size / 4094 + 1)
    ++ [0x01]
    ++ put_u16_be raster_w
    ++ put_u16_be raster_h
    ++ put_u16_be 33
    ++ put_u16_be raster_power
    ++ put_u16_be raster_depth
    ++ put_u16_be vector_w
    ++ put_u16_be vector_h
    ++ put_u32_be total_size
    ++ put_u16_be vector_power
    ++ put_u16_be vector_depth
    ++ put_u32_be point_count
    ++ put_u16_be center_x
    ++ put_u16_be center_y
    ++ [quality, 0x00]

/-- `build_job_header_raster(width, height, depth, power, center_x,
center_y)`: raster-only JOB_HEADER; `None` centers take the documented
defaults `width // 2 + 67` and `760`. -/
def build_job_header_raster (width height depth power : Nat)
    (center_x center_y : Option Nat) : List Nat :=
  let bytes_per_line := (width + 7) / 8
  let total_size := bytes_per_line * height
  let cx := center_x.getD (width / 2 + 67)
  let cy := center_y.getD 760
  build_job_header_custom width height power depth 0 0 total_size 0 0 0 cx cy 1

/-- A `K6Command` (commands.py): opcode, self-contained wire payload, and
response timeout.  The description string, ack flag, phase tag and
timestamp metadata play no part in the claims and are omitted. -/
structure K6Command where
  opcode : Nat
  payload : List Nat
  timeout : ℚ
  deriving DecidableEq

/-- `K6Opcode.DATA`. -/
def DATA_OPCODE : Nat := 0x22

/-- `K6Opcode.JOB_HEADER`. -/
def JOB_HEADER_OPCODE : Nat := 0x23

/-- A `CommandSequence` (commands.py): the ordered command list plus the
running `stats` dict that `add` keeps. -/
structure CommandSequence where
  commands : List K6Command
  total_commands : Nat
  total_bytes : Nat
  data_chunks : Nat
  estimated_time_sec : ℚ
  deriving DecidableEq

/-- The freshly constructed, empty `CommandSequence`. -/
def CommandSequence.empty : CommandSequence := ⟨[], 0, 0, 0, 0⟩

/-- `CommandSequence.add(command)`: append and update the aggregate stats
(`bytes_transferred` of a command is `len(payload)`). -/
def CommandSequence.add (s : CommandSequence) (c : K6Command) : CommandSequence where
  commands := s.commands ++ [c]
  total_commands := s.total_commands + 1
  total_bytes := s.total_bytes + c.payload.length
  data_chunks := s.data_chunks + (if c.opcode = DATA_OPCODE then 1 else 0)
  estimated_time_sec := s.estimated_time_sec + c.timeout
    + (if c.opcode = DATA_OPCODE then 1 / 10 else 0)

/-- The stats invariant of a sequence: the running counters agree with the
command list they summarize. -/
def statsInv (s : CommandSequence) : Prop :=
  s.total_commands = s.commands.length
  ∧ s.total_bytes = (s.commands.map fun c => c.payload.length).sum
  ∧ s.data_chunks = s.commands.countP fun c => c.opcode == DATA_OPCODE

/-- The dict `get_bounds` returns when it finds a JOB_HEADER command. -/
structure Bounds where
  center_x : Nat
  center_y : Nat
  width : Nat
  height : Nat
  min_x : Int
  max_x : Int
  min_y : Int
  max_y : Int
  deriving DecidableEq

/-- The bounds decoded from a JOB_HEADER payload: big-endian 16-bit fields
`(payload[i] << 8) | payload[i+1]` at bytes 32 (center_x), 34 (center_y),
6 (width) and 8 (height), and the derived envelope. -/
def decodeJobHeaderBounds (p : List Nat) : Bounds :=
  let cx := p.getD 32 0 <<< 8 ||| p.getD 33 0
  let cy := p.getD 34 0 <<< 8 ||| p.getD 35 0
  let w := p.getD 6 0 <<< 8 ||| p.getD 7 0
  let h := p.getD 8 0 <<< 8 ||| p.getD 9 0
  { center_x := cx, center_y := cy, width := w, height := h
    min_x := (cx : Int) - (w / 2 : Nat), max_x := (cx : Int) + (w / 2 : Nat)
    min_y := (cy : Int) - (h / 2 : Nat), max_y := (cy : Int) + (h / 2 : Nat) }

/-- `CommandSequence.get_bounds()`: iterate the command list in order and
return the decoded bounds of the first JOB_HEADER command whose payload has
at least 36 bytes; the loop falls through to an empty dict otherwise. -/
def CommandSequence.get_bounds (s : CommandSequence) : Option Bounds :=
  s.commands.findSome? fun cmd =>
    if cmd.opcode = JOB_HEADER_OPCODE ∧ 36 ≤ cmd.payload.length
    then some (decodeJobHeaderBounds cmd.payload) else none

/-- The specification text instead says `get_bounds` scans for the MOST
RECENT JOB_HEADER command; this definition follows those words (same field
decoding, latest matching command), to be compared with the code. -/
def get_bounds_most_recent (s : CommandSequence) : Option Bounds :=
  s.commands.reverse.findSome? fun cmd =>
    if cmd.opcode = JOB_HEADER_OPCODE ∧ 36 ≤ cmd.payload.length
    then some (decodeJobHeaderBounds cmd.payload) else none

/-- Outcome of `wait_for_completion`: the 100 percent status frame was seen,
or no bytes arrived for `idle_s` seconds (with the last observed percent,
`None` when no status frame was ever seen). -/
inductive WaitResult
  | complete (totalTime : ℚ)
  | idleTimeout (lastPct : Option Nat)
  deriving DecidableEq

/-- The result dict of `engrave_transport` (message string omitted). -/
structure EngraveResult where
  ok : Bool
  total_time : ℚ
  chunks : Nat
  deriving DecidableEq

/-- The tail of `engrave_transport` (driver.py): turn the
`wait_for_completion` result into the engrave result dict.  On
`idle_timeout` the source tests `if last_pct and last_pct >= 50` — Python
truthiness makes both `None` and `0` fall to the failure branch. -/
def engraveFinish (chunks : Nat) (r : WaitResult) : EngraveResult :=
  match r with
  | .complete t => ⟨true, t, chunks⟩
  | .idleTimeout lastPct =>
    match lastPct with
    | some p => if p ≠ 0 ∧ 50 ≤ p then ⟨true, 0, chunks⟩ else ⟨false, 0, chunks⟩
    | none => ⟨false, 0, chunks⟩

/-- Errors `engrave_transport` raises: the oversized-image `ValueError`,
a failed checked send (K6TimeoutError or K6DeviceError, by send index), a
transfer-engine error, or the hard timeout of the completion watcher. -/
inductive EngraveErr
  | valueError (w h : Nat)
  | sendFailed (idx : Nat)
  | burn (e : BurnError)
  | waitTimeout
  deriving DecidableEq

/-- The device side of one engrave call: whether each checked setup or
finalize send (numbered in order) succeeds, the reply oracle for the
transfer engine, and what the completion watcher observes (`.error` stands
for its hard K6TimeoutError). -/
structure Env where
  sendOk : Nat → Bool
  chunkOk : Nat → Nat → Bool
  waitResult : Except Unit WaitResult

/-- `1` for a pixel the laser burns: the source thresholds `pixel < 128`. -/
def pixelBit (px : Nat) : Nat := if px < 128 then 1 else 0

/-- Pad a bit row to a multiple of 8 with constant zeros, as `np.pad` does
when `width % 8 != 0`. -/
def padTo8 (bits : List Nat) : List Nat :=
  bits ++ List.replicate ((8 - bits.length % 8) % 8) 0

/-- Split a list into groups of 8, mirroring the bit::8 strided packing;
`fuel` bounds the iterations (each pass drops 8 ≥ 1 elements). -/
def groups8Go : Nat → List Nat → List (List Nat)
  | 0, _ => []
  | fuel + 1, l => if l = [] then [] else l.take 8 :: groups8Go fuel (l.drop 8)

/-- Split a list into groups of 8. -/
def groups8 (l : List Nat) : List (List Nat) := groups8Go l.length l

/-- Pack one group of 8 bits MSB-first into a byte. -/
def packByte (bits : List Nat) : Nat := bits.foldl (fun acc b => acc * 2 + b) 0

/-- One packed scanline of `engrave_transport`: threshold to 1 = burn,
pad the width to a multiple of 8, pack 8 pixels per byte MSB-first. -/
def packRow (row : List Nat) : List Nat :=
  (groups8 (padTo8 (row.map pixelBit))).map packByte

/-- The FRAMING (0x21) frame `engrave_transport` sends. -/
def FRAMING_FRAME : List Nat := [0x21, 0x00, 0x04, 0x00]

/-- The CONNECT (0x0A) frame. -/
def CONNECT_FRAME : List Nat := [0x0A, 0x00, 0x04, 0x00]

/-- The 11-byte INIT (0x24) frame, `[0x24, 0x00, 0x0B, 0x00] + [0x00] * 7`. -/
def INIT_FRAME : List Nat := [0x24, 0x00, 0x0B, 0x00, 0, 0, 0, 0, 0, 0, 0]

/-- `engrave_transport` (driver.py) over an in-memory image (grayscale pixel
rows) and a device environment.  Width and height come from the image; the
oversized check runs before anything touches the transport.  Then the
sequence FRAMING, JOB_HEADER, CONNECT x2 (each write numbered for the send
oracle), the chunked transfer, and — unless `dry_run` — INIT x2 followed by
the completion watcher.  Every raised error propagates; the trace records
what reached the transport. -/
def engraveTransport (env : Env) (dryRun : Bool) (pixels : List (List Nat))
    (power depth : Nat) (center_x center_y : Option Nat) :
    List Ev × Except EngraveErr EngraveResult :=
  let width := (pixels.headD []).length
  let height := pixels.length
  if 1600 < width ∨ 1600 < height then ([], .error (.valueError width height))
  else
    let payloadLines := pixels.map packRow
    let header := build_job_header_raster width height depth power center_x center_y
    if ¬ env.sendOk 0 then ([.write FRAMING_FRAME], .error (.sendFailed 0))
    else if ¬ env.sendOk 1 then
      ([.write FRAMING_FRAME, .write header], .error (.sendFailed 1))
    else if ¬ env.sendOk 2 then
      ([.write FRAMING_FRAME, .write header, .write CONNECT_FRAME],
        .error (.sendFailed 2))
    else if ¬ env.sendOk 3 then
      ([.write FRAMING_FRAME, .write header, .write CONNECT_FRAME,
        .write CONNECT_FRAME], .error (.sendFailed 3))
    else
      let setup : List Ev := [.write FRAMING_FRAME, .write header,
        .write CONNECT_FRAME, .write CONNECT_FRAME]
      let burn := burn_payload env.chunkOk 3 payloadLines
      match burn.2 with
      | .error e => (setup ++ burn.1, .error (.burn e))
      | .ok chunks =>
        if dryRun then (setup ++ burn.1, .ok ⟨true, 0, chunks⟩)
        else if ¬ env.sendOk 4 then
          (setup ++ burn.1 ++ [.write INIT_FRAME], .error (.sendFailed 4))
        else if ¬ env.sendOk 5 then
          (setup ++ burn.1 ++ [.write INIT_FRAME, .write INIT_FRAME],
            .error (.sendFailed 5))
        else
          let evs := setup ++ burn.1
            ++ [Ev.write INIT_FRAME, Ev.write INIT_FRAME, Ev.wait]
          match env.waitResult with
          | .error _ => (evs, .error .waitTimeout)
          | .ok r => (evs, .ok (engraveFinish chunks r))

/-- An environment whose device accepts everything and completes. -/
def envTrue : Env where
  sendOk := fun _ => true
  chunkOk := fun _ _ => true
  waitResult := .ok (.complete 0)

lemma checksum_append_zero (xs : List Nat) :
    checksum (xs ++ [0]) = (256 - xs.sum % 256) % 256 := by
  unfold checksum
  rw [List.dropLast_concat]

lemma dataPacketCore_eq (payload : List Nat) :
    dataPacketCore payload =
      ([0x22, (payload.length + 4) / 256 % 256, (payload.length + 4) % 256] ++ payload)
        ++ [(256 - ([0x22, (payload.length + 4) / 256 % 256,
              (payload.length + 4) % 256] ++ payload).sum % 256) % 256] := by
  simp only [dataPacketCore, checksum_append_zero]

lemma dataPacketCore_length (payload : List Nat) :
    (dataPacketCore payload).length = payload.length + 4 := by
  rw [dataPacketCore_eq]
  simp

lemma dataPacketCore_sum_mod (payload : List Nat) :
    (dataPacketCore payload).sum % 256 = 0 := by
  rw [dataPacketCore_eq]
  simp only [List.sum_append, List.sum_cons, List.sum_nil]
  omega

lemma dataPacketCore_dropLast (payload : List Nat) :
    (dataPacketCore payload).dropLast =
      [0x22, (payload.length + 4) / 256 % 256, (payload.length + 4) % 256] ++ payload := by
  rw [dataPacketCore_eq, List.dropLast_concat]

lemma dataPacketCore_getLast (payload : List Nat) :
    (dataPacketCore payload).getLastD 0 =
      (256 - ([0x22, (payload.length + 4) / 256 % 256, (payload.length + 4) % 256]
        ++ payload).sum % 256) % 256 := by
  rw [dataPacketCore_eq]
  simp [List.getLastD]

lemma natNegMod (S : Nat) :
    (((256 - S % 256) % 256 : Nat) : Int) = -(S : Int) % 256 := by
  omega

lemma build_data_packet_ok {p : List Nat} (h : p.length ≤ DATA_CHUNK) :
    build_data_packet p = .ok (dataPacketCore p) := by
  unfold build_data_packet
  rw [if_neg (by omega)]

lemma not_infix_of_short {l : List Nat} (h : l.length < 4) : ¬ hbPattern <:+: l := by
  intro hinf
  have := hinf.length_le
  simp [hbPattern] at this
  omega

lemma heartbeatCount_ne_zero_iff (l : List Nat) :
    heartbeatCount l ≠ 0 ↔ hbPattern <:+: l := by
  induction l using heartbeatCount.induct with
  | case1 a b c d rest ih =>
    rw [heartbeatCount]
    by_cases hw : a = 0xFF ∧ b = 0xFF ∧ c = 0xFF ∧ d = 0xFE
    · obtain ⟨ha, hb2, hc, hd⟩ := hw
      subst ha; subst hb2; subst hc; subst hd
      have hcond : (0xFF : Nat) = 0xFF ∧ (0xFF : Nat) = 0xFF
          ∧ (0xFF : Nat) = 0xFF ∧ (0xFE : Nat) = 0xFE := ⟨rfl, rfl, rfl, rfl⟩
      rw [if_pos hcond]
      refine iff_of_true (by omega) ⟨[], rest, by simp [hbPattern]⟩
    · rw [if_neg hw, Nat.zero_add, ih]
      constructor
      · intro h2
        exact List.infix_cons h2
      · intro h2
        rcases List.infix_cons_iff.mp h2 with hp | ht
        · exfalso
          apply hw
          simp only [hbPattern, List.cons_prefix_cons] at hp
          exact ⟨hp.1.symm, hp.2.1.symm, hp.2.2.1.symm, hp.2.2.2.1.symm⟩
        · exact ht
  | case2 l hne =>
    have hshort : l.length < 4 ∧ heartbeatCount l = 0 := by
      match l with
      | [] => exact ⟨by simp, rfl⟩
      | [a] => exact ⟨by simp, rfl⟩
      | [a, b] => exact ⟨by simp, rfl⟩
      | [a, b, c] => exact ⟨by simp, rfl⟩
      | a :: b :: c :: d :: rest => exact absurd rfl (hne a b c d rest)
    rw [hshort.2]
    exact iff_of_false (by omega) (not_infix_of_short hshort.1)

lemma ack_count_ne_zero_iff (rx : List Nat) : rx.count ACK ≠ 0 ↔ ACK ∈ rx := by
  rw [ne_eq, List.count_eq_zero]
  simp

lemma writesOf_nil : writesOf [] = [] := rfl

lemma writesOf_write (p : List Nat) (evs : List Ev) :
    writesOf (.write p :: evs) = p :: writesOf evs := rfl

lemma writesOf_sleep (q : ℚ) (evs : List Ev) :
    writesOf (.sleep q :: evs) = writesOf evs := rfl

lemma writesOf_append (l1 l2 : List Ev) :
    writesOf (l1 ++ l2) = writesOf l1 ++ writesOf l2 := by
  simp [writesOf]

lemma sleepsOf_nil : sleepsOf [] = [] := rfl

lemma sleepsOf_write (p : List Nat) (evs : List Ev) :
    sleepsOf (.write p :: evs) = sleepsOf evs := rfl

lemma sleepsOf_sleep (q : ℚ) (evs : List Ev) :
    sleepsOf (.sleep q :: evs) = q :: sleepsOf evs := rfl

lemma writesOf_map_write {α : Type} (f : α → List Nat) (l : List α) :
    writesOf (l.map fun t => Ev.write (f t)) = l.map f := by
  induction l with
  | nil => rfl
  | cons a l ih => simp [writesOf_write, ih]

lemma retryChunkGo_fail (li off : Nat) (pkt : List Nat) :
    ∀ remaining attempt maxRetries,
      remaining + attempt = maxRetries → attempt < maxRetries →
      (retryChunkGo (fun _ => false) maxRetries li off pkt remaining attempt).2
          = .error (.chunkFailed li off maxRetries)
      ∧ writesOf
          (retryChunkGo (fun _ => false) maxRetries li off pkt remaining attempt).1
          = List.replicate remaining pkt
      ∧ sleepsOf
          (retryChunkGo (fun _ => false) maxRetries li off pkt remaining attempt).1
          = (List.range' (attempt + 1) (remaining - 1)).map backoff := by
  intro remaining
  induction remaining with
  | zero => intro attempt m h hlt; omega
  | succ r ih =>
    intro attempt m h hlt
    rw [retryChunkGo]
    rw [if_neg (by simp)]
    by_cases hm : m ≤ attempt + 1
    · rw [if_pos hm]
      have hr : r = 0 := by omega
      subst hr
      exact ⟨rfl, by simp [writesOf_write, writesOf_nil],
        by simp [sleepsOf_write, sleepsOf_nil]⟩
    · rw [if_neg hm]
      obtain ⟨h1, h2, h3⟩ := ih (attempt + 1) m (by omega) (by omega)
      refine ⟨h1, ?_, ?_⟩
      · rw [writesOf_write, writesOf_sleep, h2]
        rfl
      · rw [sleepsOf_write, sleepsOf_sleep, h3]
        have hr1 : r - 1 + 1 = r := by omega
        rw [show List.range' (attempt + 1) (r + 1 - 1)
            = (attempt + 1) :: List.range' (attempt + 1 + 1) (r - 1) from by
          rw [Nat.add_sub_cancel, ← hr1]
          rfl]
        rfl

lemma retryChunkGo_error_name (ok : Nat → Bool) (m li off : Nat)
    (pkt : List Nat) :
    ∀ remaining attempt e,
      (retryChunkGo ok m li off pkt remaining attempt).2 = .error e →
      e = .chunkFailed li off m := by
  intro remaining
  induction remaining with
  | zero => intro attempt e h; exact absurd h (by simp [retryChunkGo])
  | succ r ih =>
    intro attempt e h
    rw [retryChunkGo] at h
    by_cases hok : ok attempt
    · rw [if_pos hok] at h; exact absurd h (by simp)
    · rw [if_neg hok] at h
      by_cases hm : m ≤ attempt + 1
      · rw [if_pos hm] at h
        exact (Except.error.inj h).symm
      · rw [if_neg hm] at h
        exact ih (attempt + 1) e h

lemma retryChunkGo_ok_true (ok : Nat → Bool) (m li off : Nat)
    (pkt : List Nat) :
    ∀ remaining attempt b,
      remaining + attempt = m → attempt < m →
      (retryChunkGo ok m li off pkt remaining attempt).2 = .ok b → b = true := by
  intro remaining
  induction remaining with
  | zero => intro attempt b h hlt; omega
  | succ r ih =>
    intro attempt b h hlt hok2
    rw [retryChunkGo] at hok2
    by_cases hok : ok attempt
    · rw [if_pos hok] at hok2; exact (Except.ok.inj hok2).symm
    · rw [if_neg hok] at hok2
      by_cases hm : m ≤ attempt + 1
      · rw [if_pos hm] at hok2; exact absurd hok2 (by simp)
      · rw [if_neg hm] at hok2
        exact ih (attempt + 1) b (by omega) (by omega) hok2

lemma retryChunk_all_ok (ok : Nat → Bool) (m li off : Nat) (pkt : List Nat)
    (hm : 1 ≤ m) (hok : ok 0 = true) :
    retryChunk ok m li off pkt = ([.write pkt], .ok true) := by
  unfold retryChunk
  match m, hm with
  | m2 + 1, _ =>
    rw [retryChunkGo, if_pos hok]

lemma mem_foldr_append {α β : Type} (f : α → List β) (l : List α) (t : β) :
    t ∈ l.foldr (fun p acc => f p ++ acc) [] ↔ ∃ p ∈ l, t ∈ f p := by
  induction l with
  | nil => simp
  | cons a l ih => simp [ih]

lemma length_foldr_append {α β : Type} (f : α → List β) (l : List α) :
    (l.foldr (fun p acc => f p ++ acc) []).length
      = (l.map fun p => (f p).length).sum := by
  induction l with
  | nil => rfl
  | cons a l ih => simp [ih]

lemma splitLineGo_mem (line : List Nat) :
    ∀ fuel offset oc, oc ∈ splitLineGo line fuel offset →
      oc.2 = (line.drop oc.1).take DATA_CHUNK := by
  intro fuel
  induction fuel with
  | zero => intro offset oc h; exact absurd h (by simp [splitLineGo])
  | succ f ih =>
    intro offset oc h
    rw [splitLineGo] at h
    by_cases ho : offset < line.length
    · rw [if_pos ho] at h
      rcases List.mem_cons.mp h with he | hm
      · subst he; rfl
      · exact ih _ oc hm
    · rw [if_neg ho] at h
      exact absurd h (by simp)

lemma chunksWithMeta_chunk_le (lines : List (List Nat)) :
    ∀ t ∈ chunksWithMeta lines, t.2.2.length ≤ DATA_CHUNK := by
  intro t ht
  unfold chunksWithMeta at ht
  obtain ⟨p, _, hin⟩ := (mem_foldr_append _ _ _).mp ht
  obtain ⟨oc, hoc, hte⟩ := List.mem_map.mp hin
  have := splitLineGo_mem p.2 _ _ oc hoc
  subst hte
  simp only
  rw [this]
  simp [List.length_take]

lemma runChunks_cons_err (ok : Nat → Nat → Bool) (m li off ci count : Nat)
    (chunk pkt : List Nat) (rest : List (Nat × Nat × List Nat))
    (evs : List Ev) (e : BurnError)
    (hb : build_data_packet chunk = .ok pkt)
    (hr : retryChunk (ok ci) m li off pkt = (evs, .error e)) :
    runChunks ok m ((li, off, chunk) :: rest) ci count = (evs, .error e) := by
  rw [runChunks, hb]
  simp only [hr]

lemma runChunks_cons_okb (ok : Nat → Nat → Bool) (m li off ci count : Nat)
    (chunk pkt : List Nat) (rest : List (Nat × Nat × List Nat))
    (evs : List Ev) (b : Bool)
    (hb : build_data_packet chunk = .ok pkt)
    (hr : retryChunk (ok ci) m li off pkt = (evs, .ok b)) :
    runChunks ok m ((li, off, chunk) :: rest) ci count
      = (evs ++ (runChunks ok m rest (ci + 1) (if b then count + 1 else count)).1,
         (runChunks ok m rest (ci + 1) (if b then count + 1 else count)).2) := by
  rw [runChunks, hb]
  simp only [hr]

lemma runChunks_cons_okt (ok : Nat → Nat → Bool) (m li off ci count : Nat)
    (chunk pkt : List Nat) (rest : List (Nat × Nat × List Nat))
    (evs : List Ev)
    (hb : build_data_packet chunk = .ok pkt)
    (hr : retryChunk (ok ci) m li off pkt = (evs, .ok true)) :
    runChunks ok m ((li, off, chunk) :: rest) ci count
      = (evs ++ (runChunks ok m rest (ci + 1) (count + 1)).1,
         (runChunks ok m rest (ci + 1) (count + 1)).2) := by
  rw [runChunks_cons_okb ok m li off ci count chunk pkt rest evs true hb hr]
  simp

lemma runChunks_cons_builderr (ok : Nat → Nat → Bool) (m li off ci count : Nat)
    (chunk : List Nat) (rest : List (Nat × Nat × List Nat)) (msg : String)
    (hb : build_data_packet chunk = .error msg) :
    runChunks ok m ((li, off, chunk) :: rest) ci count
      = ([], .error .payloadTooLarge) := by
  rw [runChunks, hb]

lemma retryChunk_ok_true (ok : Nat → Bool) (m li off : Nat) (pkt : List Nat)
    (hm : 1 ≤ m) {evs : List Ev} {b : Bool}
    (h : retryChunk ok m li off pkt = (evs, .ok b)) : b = true := by
  refine retryChunkGo_ok_true ok m li off pkt m 0 b (by omega) (by omega) ?_
  rw [show retryChunkGo ok m li off pkt m 0 = retryChunk ok m li off pkt
    from rfl, h]

lemma runChunks_all_ok (ok : Nat → Nat → Bool) (m : Nat) (hm : 1 ≤ m)
    (hok : ∀ ci a, ok ci a = true) :
    ∀ (l : List (Nat × Nat × List Nat)) (ci count : Nat),
      (∀ t ∈ l, t.2.2.length ≤ DATA_CHUNK) →
      runChunks ok m l ci count
        = (l.map fun t => Ev.write (dataPacketCore t.2.2),
            .ok (count + l.length)) := by
  intro l
  induction l with
  | nil => intro ci count _; simp [runChunks]
  | cons t rest ih =>
    intro ci count hlen
    obtain ⟨li, off, chunk⟩ := t
    have hb : build_data_packet chunk = .ok (dataPacketCore chunk) :=
      build_data_packet_ok (hlen (li, off, chunk) (by simp))
    have hr := retryChunk_all_ok (ok ci) m li off (dataPacketCore chunk) hm
      (hok ci 0)
    rw [runChunks_cons_okt ok m li off ci count chunk (dataPacketCore chunk)
      rest _ hb hr]
    rw [ih (ci + 1) (count + 1)
      (fun t2 ht2 => hlen t2 (List.mem_cons_of_mem _ ht2))]
    simp only [List.map_cons, List.singleton_append, List.length_cons,
      Prod.mk.injEq]
    exact ⟨by trivial, by congr 1; omega⟩

lemma runChunks_ok_count (ok : Nat → Nat → Bool) (m : Nat) (hm : 1 ≤ m) :
    ∀ (l : List (Nat × Nat × List Nat)) (ci count n : Nat),
      (runChunks ok m l ci count).2 = .ok n → n = count + l.length := by
  intro l
  induction l with
  | nil =>
    intro ci count n h
    simp only [runChunks] at h
    simpa using (Except.ok.inj h).symm
  | cons t rest ih =>
    intro ci count n h
    obtain ⟨li, off, chunk⟩ := t
    rcases hbp : build_data_packet chunk with msg | pkt
    · rw [runChunks_cons_builderr ok m li off ci count chunk rest msg hbp] at h
      exact absurd h (by simp)
    · rcases hrc : retryChunk (ok ci) m li off pkt with ⟨evs, r⟩
      match r, hrc with
      | .error e, hrc =>
        rw [runChunks_cons_err ok m li off ci count chunk pkt rest evs e
          hbp hrc] at h
        exact absurd h (by simp)
      | .ok b, hrc =>
        have hbt := retryChunk_ok_true (ok ci) m li off pkt hm hrc
        subst hbt
        rw [runChunks_cons_okt ok m li off ci count chunk pkt rest evs
          hbp hrc] at h
        simp only at h
        have := ih (ci + 1) (count + 1) n h
        simp only [List.length_cons]
        omega

lemma runChunks_error_name (ok : Nat → Nat → Bool) (m : Nat) :
    ∀ (l : List (Nat × Nat × List Nat)) (ci count : Nat) (e : BurnError),
      (∀ t ∈ l, t.2.2.length ≤ DATA_CHUNK) →
      (runChunks ok m l ci count).2 = .error e →
      ∃ t ∈ l, e = .chunkFailed t.1 t.2.1 m := by
  intro l
  induction l with
  | nil => intro ci count e _ h; exact absurd h (by simp [runChunks])
  | cons t rest ih =>
    intro ci count e hlen h
    obtain ⟨li, off, chunk⟩ := t
    have hb : build_data_packet chunk = .ok (dataPacketCore chunk) :=
      build_data_packet_ok (hlen (li, off, chunk) (by simp))
    rcases hrc : retryChunk (ok ci) m li off (dataPacketCore chunk)
      with ⟨evs, r⟩
    match r, hrc with
    | .error e2, hrc =>
      rw [runChunks_cons_err ok m li off ci count chunk (dataPacketCore chunk)
        rest evs e2 hb hrc] at h
      have he2 : e2 = .chunkFailed li off m := by
        refine retryChunkGo_error_name (ok ci) m li off (dataPacketCore chunk) m 0 e2 ?_
        rw [show retryChunkGo (ok ci) m li off (dataPacketCore chunk) m 0
          = retryChunk (ok ci) m li off (dataPacketCore chunk) from rfl, hrc]
      have he : e = e2 := by simpa using h.symm
      exact ⟨(li, off, chunk), by simp, by rw [he, he2]⟩
    | .ok b, hrc =>
      rw [runChunks_cons_okb ok m li off ci count chunk (dataPacketCore chunk)
        rest evs b hb hrc] at h
      simp only at h
      obtain ⟨t2, ht2, he⟩ := ih (ci + 1) (if b then count + 1 else count) e
        (fun t2 ht2 => hlen t2 (List.mem_cons_of_mem _ ht2)) h
      exact ⟨t2, List.mem_cons_of_mem _ ht2, he⟩

lemma splitLineGo_length (line : List Nat) :
    ∀ fuel offset,
      (line.length - offset + DATA_CHUNK - 1) / DATA_CHUNK ≤ fuel →
      (splitLineGo line fuel offset).length
        = (line.length - offset + DATA_CHUNK - 1) / DATA_CHUNK := by
  intro fuel
  induction fuel with
  | zero =>
    intro offset h
    simp only [splitLineGo, List.length_nil]
    simp only [DATA_CHUNK] at h ⊢
    omega
  | succ f ih =>
    intro offset h
    rw [splitLineGo]
    by_cases ho : offset < line.length
    · rw [if_pos ho]
      simp only [List.length_cons]
      rw [ih (offset + DATA_CHUNK) (by simp only [DATA_CHUNK] at h ⊢; omega)]
      simp only [DATA_CHUNK] at h ⊢
      omega
    · rw [if_neg ho]
      simp only [List.length_nil, DATA_CHUNK] at h ⊢
      omega

lemma splitLine_length (line : List Nat) :
    (splitLine line).length = (line.length + DATA_CHUNK - 1) / DATA_CHUNK := by
  unfold splitLine
  rw [splitLineGo_length line line.length 0 (by simp only [DATA_CHUNK]; omega)]
  simp

lemma splitLineGo_join (line : List Nat) :
    ∀ fuel offset,
      (line.length - offset + DATA_CHUNK - 1) / DATA_CHUNK ≤ fuel →
      ((splitLineGo line fuel offset).map fun oc => oc.2).foldr (· ++ ·) []
        = line.drop offset := by
  intro fuel
  induction fuel with
  | zero =>
    intro offset h
    have hle : line.length ≤ offset := by
      simp only [DATA_CHUNK] at h
      omega
    show ([] : List Nat) = _
    rw [List.drop_eq_nil_of_le hle]
  | succ f ih =>
    intro offset h
    rw [splitLineGo]
    by_cases ho : offset < line.length
    · rw [if_pos ho]
      simp only [List.map_cons, List.foldr_cons]
      rw [ih (offset + DATA_CHUNK) (by simp only [DATA_CHUNK] at h ⊢; omega)]
      rw [← List.drop_drop]
      exact List.take_append_drop DATA_CHUNK (line.drop offset)
    · rw [if_neg ho]
      simp only [List.map_nil, List.foldr_nil]
      rw [List.drop_eq_nil_of_le (by omega)]

lemma chunksWithMeta_length (lines : List (List Nat)) :
    (chunksWithMeta lines).length = totalChunks lines := by
  unfold chunksWithMeta totalChunks
  rw [length_foldr_append]
  have e1 : (lines.enum.map fun p =>
        ((splitLine p.2).map fun oc => ((p.1, oc.1, oc.2) : Nat × Nat × List Nat)).length)
      = lines.enum.map fun p =>
        (p.2.length + DATA_CHUNK - 1) / DATA_CHUNK := by
    apply List.map_congr_left
    intro p _
    rw [List.length_map, splitLine_length]
  rw [e1]
  rw [show (fun (p : Nat × List Nat) => (p.2.length + DATA_CHUNK - 1) / DATA_CHUNK)
    = (fun line : List Nat => (line.length + DATA_CHUNK - 1) / DATA_CHUNK) ∘ Prod.snd
    from rfl]
  rw [← List.map_map, List.enum_map_snd]

/-- C3: per chunk, each failed send increments the attempt counter and the
engine sleeps 0.1 * 2 ** (attempt - 1) seconds before retrying, for up to
maxRetries attempts; an always-failing chunk is written exactly maxRetries
times, and the exhausted budget raises the terminal device error naming
the line index and byte offset, which aborts the whole transfer with an
error rather than any count. -/
theorem chunk_retry_backoff_and_abort (maxRetries li off : Nat)
    (pkt : List Nat) (h : 1 ≤ maxRetries) :
    ((retryChunk (fun _ => false) maxRetries li off pkt).2
        = .error (.chunkFailed li off maxRetries)
      ∧ writesOf (retryChunk (fun _ => false) maxRetries li off pkt).1
        = List.replicate maxRetries pkt
      ∧ sleepsOf (retryChunk (fun _ => false) maxRetries li off pkt).1
        = (List.range (maxRetries - 1)).map fun k => (1 / 10 : ℚ) * 2 ^ k)
    ∧ (∀ (ok : Nat → Nat → Bool) (lines : List (List Nat)) (e : BurnError),
        (burn_payload ok maxRetries lines).2 = .error e →
          (∀ n, (burn_payload ok maxRetries lines).2 ≠ .ok n)
          ∧ ∃ lineIdx offset chunk,
              e = .chunkFailed lineIdx offset maxRetries
              ∧ (lineIdx, offset, chunk) ∈ chunksWithMeta lines) := by
  constructor
  · unfold retryChunk
    obtain ⟨h1, h2, h3⟩ := retryChunkGo_fail li off pkt maxRetries 0 maxRetries
      (by omega) (by omega)
    refine ⟨h1, h2, ?_⟩
    rw [h3, List.range'_eq_map_range, List.map_map]
    apply List.map_congr_left
    intro k _
    simp only [Function.comp_apply, backoff]
    norm_num
  · intro ok lines e he
    refine ⟨fun n hn => by rw [he] at hn; exact Except.noConfusion hn, ?_⟩
    obtain ⟨t, ht, hte⟩ := runChunks_error_name ok maxRetries
      (chunksWithMeta lines) 0 0 e (chunksWithMeta_chunk_le lines) he
    exact ⟨t.1, t.2.1, t.2.2, hte, ht⟩

/-- Witness for C3 at maxRetries = 3 (the default), line 0, offset 0. -/
theorem chunk_retry_backoff_and_abort_witness :
    1 ≤ 3
    ∧ (((retryChunk (fun _ => false) 3 0 0 [7]).2
          = .error (.chunkFailed 0 0 3)
        ∧ writesOf (retryChunk (fun _ => false) 3 0 0 [7]).1
          = List.replicate 3 [7]
        ∧ sleepsOf (retryChunk (fun _ => false) 3 0 0 [7]).1
          = (List.range (3 - 1)).map fun k => (1 / 10 : ℚ) * 2 ^ k)
      ∧ (∀ (ok : Nat → Nat → Bool) (lines : List (List Nat)) (e : BurnError),
          (burn_payload ok 3 lines).2 = .error e →
            (∀ n, (burn_payload ok 3 lines).2 ≠ .ok n)
            ∧ ∃ lineIdx offset chunk,
                e = .chunkFailed lineIdx offset 3
                ∧ (lineIdx, offset, chunk) ∈ chunksWithMeta lines)) :=
  ⟨by decide, chunk_retry_backoff_and_abort 3 0 0 [7] (by decide)⟩

/-- C4: with a device that accepts every chunk, `burn_payload` splits every
scanline into at-most-1900-byte pieces whose concatenation restores the
line, sends exactly one DATA packet per piece in emission order, and
returns the total chunk count, the sum of ceil(len(line) / 1900); a
3000-byte scanline gives exactly the two pieces 1900 and 1100 bytes and a
returned count of 2. -/
theorem burn_chunking_all_ok (lines : List (List Nat)) (maxRetries : Nat)
    (h : 1 ≤ maxRetries) :
    (burn_payload (fun _ _ => true) maxRetries lines).2
        = .ok (totalChunks lines)
    ∧ writesOf (burn_payload (fun _ _ => true) maxRetries lines).1
        = ((chunksWithMeta lines).map fun t => dataPacketCore t.2.2)
    ∧ (∀ line : List Nat,
        ((splitLine line).map fun oc => oc.2).foldr (· ++ ·) [] = line
        ∧ ∀ oc ∈ splitLine line, oc.2.length ≤ 1900)
    ∧ (∀ line : List Nat, line.length = 3000 →
        ((splitLine line).map fun oc => oc.2.length) = [1900, 1100]
        ∧ (burn_payload (fun _ _ => true) 3 [line]).2 = .ok 2) := by
  have hrun := runChunks_all_ok (fun _ _ => true) maxRetries h
    (fun _ _ => rfl)
  refine ⟨?_, ?_, ?_, ?_⟩
  · unfold burn_payload
    rw [hrun (chunksWithMeta lines) 0 0 (chunksWithMeta_chunk_le lines)]
    simp [chunksWithMeta_length]
  · unfold burn_payload
    rw [hrun (chunksWithMeta lines) 0 0 (chunksWithMeta_chunk_le lines)]
    simp only
    exact writesOf_map_write _ _
  · intro line
    constructor
    · exact splitLineGo_join line line.length 0 (by simp only [DATA_CHUNK]; omega)
    · intro oc hoc
      have := splitLineGo_mem line line.length 0 oc hoc
      rw [this]
      calc ((line.drop oc.1).take DATA_CHUNK).length ≤ DATA_CHUNK :=
            List.length_take_le DATA_CHUNK (line.drop oc.1)
        _ ≤ 1900 := by simp [DATA_CHUNK]
  · intro line hlen
    constructor
    · have e1 : splitLine line
          = [(0, (line.drop 0).take DATA_CHUNK),
             (DATA_CHUNK, (line.drop DATA_CHUNK).take DATA_CHUNK)] := by
        unfold splitLine
        rw [hlen]
        rw [show (3000 : Nat) = 2999 + 1 from rfl, splitLineGo,
          if_pos (show 0 < line.length by omega)]
        rw [show (2999 : Nat) = 2998 + 1 from rfl, splitLineGo,
          if_pos (show 0 + DATA_CHUNK < line.length by
            simp only [DATA_CHUNK]; omega)]
        rw [show (2998 : Nat) = 2997 + 1 from rfl, splitLineGo,
          if_neg (show ¬ 0 + DATA_CHUNK + DATA_CHUNK < line.length by
            simp only [DATA_CHUNK]; omega)]
        simp
      rw [e1]
      simp [List.length_take, List.length_drop, hlen, DATA_CHUNK]
    · have hr := runChunks_all_ok (fun _ _ => true) 3 (by omega)
        (fun _ _ => rfl) (chunksWithMeta [line]) 0 0
        (chunksWithMeta_chunk_le [line])
      unfold burn_payload
      rw [hr]
      simp only [Nat.zero_add]
      rw [chunksWithMeta_length]
      unfold totalChunks
      simp [hlen, DATA_CHUNK]

/-- Witness for C4 at a 3000-byte scanline and the default retry budget. -/
theorem burn_chunking_all_ok_witness :
    1 ≤ 3
    ∧ ((burn_payload (fun _ _ => true) 3 [List.replicate 3000 7]).2
          = .ok (totalChunks [List.replicate 3000 7])
        ∧ writesOf (burn_payload (fun _ _ => true) 3 [List.replicate 3000 7]).1
          = ((chunksWithMeta [List.replicate 3000 7]).map
              fun t => dataPacketCore t.2.2)
        ∧ (∀ line : List Nat,
            ((splitLine line).map fun oc => oc.2).foldr (· ++ ·) [] = line
            ∧ ∀ oc ∈ splitLine line, oc.2.length ≤ 1900)
        ∧ (∀ line : List Nat, line.length = 3000 →
            ((splitLine line).map fun oc => oc.2.length) = [1900, 1100]
            ∧ (burn_payload (fun _ _ => true) 3 [line]).2 = .ok 2)) :=
  ⟨by decide, burn_chunking_all_ok [List.replicate 3000 7] 3 (by decide)⟩

lemma build_data_packet_ok_inv {chunk pkt : List Nat}
    (h : build_data_packet chunk = .ok pkt) : pkt = dataPacketCore chunk := by
  unfold build_data_packet at h
  by_cases hc : DATA_CHUNK < chunk.length
  · rw [if_pos hc] at h; exact absurd h (by simp)
  · rw [if_neg hc] at h; exact (Except.ok.inj h).symm

lemma retryChunkGo_events (ok : Nat → Bool) (m li off : Nat) (pkt : List Nat) :
    ∀ remaining attempt e,
      e ∈ (retryChunkGo ok m li off pkt remaining attempt).1 →
      e = .write pkt ∨ ∃ q, e = .sleep q := by
  intro remaining
  induction remaining with
  | zero => intro attempt e h; exact absurd h (by simp [retryChunkGo])
  | succ r ih =>
    intro attempt e h
    rw [retryChunkGo] at h
    by_cases hok : ok attempt
    · rw [if_pos hok] at h
      rcases List.mem_singleton.mp h with rfl
      exact Or.inl rfl
    · rw [if_neg hok] at h
      by_cases hm : m ≤ attempt + 1
      · rw [if_pos hm] at h
        rcases List.mem_singleton.mp h with rfl
        exact Or.inl rfl
      · rw [if_neg hm] at h
        rcases List.mem_cons.mp h with rfl | h2
        · exact Or.inl rfl
        · rcases List.mem_cons.mp h2 with rfl | h3
          · exact Or.inr ⟨backoff (attempt + 1), rfl⟩
          · exact ih (attempt + 1) e h3

lemma runChunks_events (ok : Nat → Nat → Bool) (m : Nat) :
    ∀ (l : List (Nat × Nat × List Nat)) (ci count : Nat) (e : Ev),
      e ∈ (runChunks ok m l ci count).1 →
      (∃ p, e = .write (dataPacketCore p)) ∨ ∃ q, e = .sleep q := by
  intro l
  induction l with
  | nil => intro ci count e h; exact absurd h (by simp [runChunks])
  | cons t rest ih =>
    intro ci count e h
    obtain ⟨li, off, chunk⟩ := t
    rcases hbp : build_data_packet chunk with msg | pkt
    · rw [runChunks_cons_builderr ok m li off ci count chunk rest msg hbp] at h
      exact absurd h (by simp)
    · have hpk := build_data_packet_ok_inv hbp
      subst hpk
      rcases hrc : retryChunk (ok ci) m li off (dataPacketCore chunk)
        with ⟨evs, r⟩
      have hevs : ∀ e2 ∈ evs, e2 = Ev.write (dataPacketCore chunk)
          ∨ ∃ q, e2 = Ev.sleep q := by
        intro e2 he2
        refine retryChunkGo_events (ok ci) m li off (dataPacketCore chunk)
          m 0 e2 ?_
        rw [show retryChunkGo (ok ci) m li off (dataPacketCore chunk) m 0
          = retryChunk (ok ci) m li off (dataPacketCore chunk) from rfl, hrc]
        exact he2
      match r, hrc with
      | .error e2, hrc =>
        rw [runChunks_cons_err ok m li off ci count chunk
          (dataPacketCore chunk) rest evs e2 hbp hrc] at h
        rcases hevs e h with he | he
        · exact Or.inl ⟨chunk, he⟩
        · exact Or.inr he
      | .ok b, hrc =>
        rw [runChunks_cons_okb ok m li off ci count chunk
          (dataPacketCore chunk) rest evs b hbp hrc] at h
        rcases List.mem_append.mp h with he | he
        · rcases hevs e he with h2 | h2
          · exact Or.inl ⟨chunk, h2⟩
          · exact Or.inr h2
        · exact ih (ci + 1) (if b then count + 1 else count) e he

lemma burn_payload_ok_total (ok : Nat → Nat → Bool) (m : Nat) (hm : 1 ≤ m)
    {lines : List (List Nat)} {n : Nat}
    (h : (burn_payload ok m lines).2 = .ok n) : n = totalChunks lines := by
  have := runChunks_ok_count ok m hm (chunksWithMeta lines) 0 0 n h
  rw [this, chunksWithMeta_length]
  omega

lemma findSome?_append_none {α β : Type} (f : α → Option β)
    (l1 l2 : List α) (h : ∀ x ∈ l1, f x = none) :
    (l1 ++ l2).findSome? f = l2.findSome? f := by
  induction l1 with
  | nil => rfl
  | cons a t ih =>
    rw [List.cons_append]
    simp only [List.findSome?_cons, h a (List.mem_cons_self a t)]
    exact ih fun x hx => h x (List.mem_cons_of_mem _ hx)

lemma engrave_dry_run (env : Env) (pixels : List (List Nat))
    (power depth : Nat) (cx cy : Option Nat) (n : Nat)
    (hsend : ∀ i, env.sendOk i = true)
    (hw : (pixels.headD []).length ≤ 1600) (hh : pixels.length ≤ 1600)
    (hburn : (burn_payload env.chunkOk 3 (pixels.map packRow)).2 = .ok n) :
    engraveTransport env true pixels power depth cx cy
      = ([Ev.write FRAMING_FRAME,
          Ev.write (build_job_header_raster (pixels.headD []).length
            pixels.length depth power cx cy),
          Ev.write CONNECT_FRAME, Ev.write CONNECT_FRAME]
          ++ (burn_payload env.chunkOk 3 (pixels.map packRow)).1,
         .ok ⟨true, 0, n⟩) := by
  unfold engraveTransport
  rw [if_neg (by rintro (h2 | h2) <;> omega)]
  rw [if_neg (show ¬¬(env.sendOk 0 = true) from fun hc => hc (hsend 0))]
  rw [if_neg (show ¬¬(env.sendOk 1 = true) from fun hc => hc (hsend 1))]
  rw [if_neg (show ¬¬(env.sendOk 2 = true) from fun hc => hc (hsend 2))]
  rw [if_neg (show ¬¬(env.sendOk 3 = true) from fun hc => hc (hsend 3))]
  simp only [hburn]
  rw [if_pos trivial]

/-- C1: for every payload of at most 1900 bytes, the frame built by
`build_data_packet` sums to 0 mod 256 once the checksum byte is appended,
and its final byte is the twos-complement (mod 256) negative sum of all
preceding bytes. -/
theorem data_packet_checksum (p : List Nat) (h : p.length ≤ 1900) :
    ∃ f, build_data_packet p = .ok f ∧ f.sum % 256 = 0
      ∧ (f.getLastD 0 : Int) = -(f.dropLast.sum : Int) % 256 := by
  refine ⟨dataPacketCore p, build_data_packet_ok (by simpa [DATA_CHUNK] using h),
    dataPacketCore_sum_mod p, ?_⟩
  rw [dataPacketCore_getLast, dataPacketCore_dropLast]
  exact natNegMod _

/-- Witness for C1 at the concrete payload [1, 2, 3]. -/
theorem data_packet_checksum_witness :
    ([1, 2, 3] : List Nat).length ≤ 1900
    ∧ ∃ f, build_data_packet [1, 2, 3] = .ok f ∧ f.sum % 256 = 0
        ∧ (f.getLastD 0 : Int) = -(f.dropLast.sum : Int) % 256 :=
  ⟨by decide, data_packet_checksum [1, 2, 3] (by decide)⟩

/-- C2: oversized payloads raise ValueError; otherwise the frame has length
len(p) + 4, opcode 0x22 at byte 0, the big-endian 16-bit total length at
bytes 1-2, and the payload verbatim at offset 3. -/
theorem data_packet_framing (p : List Nat) :
    (1900 < p.length → build_data_packet p = .error ("Payload too large"))
    ∧ (p.length ≤ 1900 → ∃ f, build_data_packet p = .ok f
        ∧ f.length = p.length + 4
        ∧ f.getD 0 0 = 0x22
        ∧ f.getD 1 0 * 256 + f.getD 2 0 = p.length + 4
        ∧ (f.drop 3).take p.length = p) := by
  constructor
  · intro h
    unfold build_data_packet
    rw [if_pos (by simpa [DATA_CHUNK] using h)]
  · intro h
    refine ⟨dataPacketCore p, build_data_packet_ok (by simpa [DATA_CHUNK] using h),
      dataPacketCore_length p, ?_, ?_, ?_⟩
    · rw [dataPacketCore_eq]; rfl
    · rw [dataPacketCore_eq]
      show (p.length + 4) / 256 % 256 * 256 + (p.length + 4) % 256 = p.length + 4
      omega
    · rw [dataPacketCore_eq]
      have h3 : ([0x22, (p.length + 4) / 256 % 256, (p.length + 4) % 256] ++ p)
          ++ [(256 - ([0x22, (p.length + 4) / 256 % 256, (p.length + 4) % 256]
            ++ p).sum % 256) % 256]
          = [0x22, (p.length + 4) / 256 % 256, (p.length + 4) % 256]
            ++ (p ++ [(256 - ([0x22, (p.length + 4) / 256 % 256,
                (p.length + 4) % 256] ++ p).sum % 256) % 256]) := by
        simp
      rw [h3]
      rw [show (3 : Nat) = ([0x22, (p.length + 4) / 256 % 256,
        (p.length + 4) % 256] : List Nat).length from rfl]
      rw [List.drop_left, show p.length = p.length from rfl, List.take_left]

/-- Witness for C2 at the concrete payload [5, 6]. -/
theorem data_packet_framing_witness :
    ([5, 6] : List Nat).length ≤ 1900
    ∧ ∃ f, build_data_packet [5, 6] = .ok f
        ∧ f.length = ([5, 6] : List Nat).length + 4
        ∧ f.getD 0 0 = 0x22
        ∧ f.getD 1 0 * 256 + f.getD 2 0 = ([5, 6] : List Nat).length + 4
        ∧ (f.drop 3).take ([5, 6] : List Nat).length = [5, 6] :=
  ⟨by decide, (data_packet_framing [5, 6]).2 (by decide)⟩

/-- C6 counterexample: the claim says a status frame FF FF 00 XX is
classified as STATUS, but `parse_response_frames` has no STATUS class at
all — on the concrete status frame FF FF 00 50 (80 percent) it returns the
type string OTHER (0 heartbeats, 0 ACKs). -/
theorem status_frame_classified_other :
    parse_response_frames [0xFF, 0xFF, 0x00, 0x50] = (0, 0, ("OTHER")) := by
  decide

/-- C6 amended: `parse_response_frames` classifies into exactly NONE (empty
read), HEARTBEAT+ACK (both an FF FF FF FE window and a 0x09 byte present),
HEARTBEAT, ACK, and OTHER; status frames have no class of their own and
fall under OTHER when nothing else matches. -/
theorem response_type_characterization (rx : List Nat) :
    ((parse_response_frames rx).2.2 = ("NONE") ↔ rx = [])
    ∧ ((parse_response_frames rx).2.2 = ("HEARTBEAT+ACK")
        ↔ hbPattern <:+: rx ∧ ACK ∈ rx)
    ∧ ((parse_response_frames rx).2.2 = ("HEARTBEAT")
        ↔ hbPattern <:+: rx ∧ ACK ∉ rx)
    ∧ ((parse_response_frames rx).2.2 = ("ACK")
        ↔ rx ≠ [] ∧ ¬ hbPattern <:+: rx ∧ ACK ∈ rx)
    ∧ ((parse_response_frames rx).2.2 = ("OTHER")
        ↔ rx ≠ [] ∧ ¬ hbPattern <:+: rx ∧ ACK ∉ rx) := by
  by_cases hrx : rx = []
  · subst hrx
    refine ⟨iff_of_true rfl rfl,
      iff_of_false (by decide) fun h => absurd h.2 (List.not_mem_nil _),
      iff_of_false (by decide) fun h => not_infix_of_short (by simp) h.1,
      iff_of_false (by decide) fun h => h.1 rfl,
      iff_of_false (by decide) fun h => h.1 rfl⟩
  · have heval : parse_response_frames rx =
        (heartbeatCount rx, rx.count ACK,
          if heartbeatCount rx ≠ 0 ∧ rx.count ACK ≠ 0 then ("HEARTBEAT+ACK")
          else if heartbeatCount rx ≠ 0 then ("HEARTBEAT")
          else if rx.count ACK ≠ 0 then ("ACK") else ("OTHER")) := by
      unfold parse_response_frames
      rw [if_neg hrx]
    by_cases hhb : heartbeatCount rx ≠ 0 <;> by_cases hack : rx.count ACK ≠ 0
    · have hinf := (heartbeatCount_ne_zero_iff rx).mp hhb
      have hmem := (ack_count_ne_zero_iff rx).mp hack
      have htyp : (parse_response_frames rx).2.2 = ("HEARTBEAT+ACK") := by
        rw [heval]
        show (if heartbeatCount rx ≠ 0 ∧ rx.count ACK ≠ 0 then _ else _) = _
        rw [if_pos ⟨hhb, hack⟩]
      rw [htyp]
      exact ⟨iff_of_false (by decide) hrx,
        iff_of_true rfl ⟨hinf, hmem⟩,
        iff_of_false (by decide) fun h => h.2 hmem,
        iff_of_false (by decide) fun h => h.2.1 hinf,
        iff_of_false (by decide) fun h => h.2.1 hinf⟩
    · have hinf := (heartbeatCount_ne_zero_iff rx).mp hhb
      have hnotmem : ACK ∉ rx := fun hm =>
        hack ((ack_count_ne_zero_iff rx).mpr hm)
      have htyp : (parse_response_frames rx).2.2 = ("HEARTBEAT") := by
        rw [heval]
        show (if heartbeatCount rx ≠ 0 ∧ rx.count ACK ≠ 0 then _ else _) = _
        rw [if_neg (fun h => hack h.2), if_pos hhb]
      rw [htyp]
      exact ⟨iff_of_false (by decide) hrx,
        iff_of_false (by decide) fun h => hnotmem h.2,
        iff_of_true rfl ⟨hinf, hnotmem⟩,
        iff_of_false (by decide) fun h => h.2.1 hinf,
        iff_of_false (by decide) fun h => h.2.1 hinf⟩
    · have hnotinf : ¬ hbPattern <:+: rx := fun hi =>
        hhb ((heartbeatCount_ne_zero_iff rx).mpr hi)
      have hmem := (ack_count_ne_zero_iff rx).mp hack
      have htyp : (parse_response_frames rx).2.2 = ("ACK") := by
        rw [heval]
        show (if heartbeatCount rx ≠ 0 ∧ rx.count ACK ≠ 0 then _ else _) = _
        rw [if_neg (fun h => hhb h.1), if_neg hhb, if_pos hack]
      rw [htyp]
      exact ⟨iff_of_false (by decide) hrx,
        iff_of_false (by decide) fun h => hnotinf h.1,
        iff_of_false (by decide) fun h => hnotinf h.1,
        iff_of_true rfl ⟨hrx, hnotinf, hmem⟩,
        iff_of_false (by decide) fun h => h.2.2 hmem⟩
    · have hnotinf : ¬ hbPattern <:+: rx := fun hi =>
        hhb ((heartbeatCount_ne_zero_iff rx).mpr hi)
      have hnotmem : ACK ∉ rx := fun hm =>
        hack ((ack_count_ne_zero_iff rx).mpr hm)
      have htyp : (parse_response_frames rx).2.2 = ("OTHER") := by
        rw [heval]
        show (if heartbeatCount rx ≠ 0 ∧ rx.count ACK ≠ 0 then _ else _) = _
        rw [if_neg (fun h => hhb h.1), if_neg hhb, if_neg hack]
      rw [htyp]
      exact ⟨iff_of_false (by decide) hrx,
        iff_of_false (by decide) fun h => hnotinf h.1,
        iff_of_false (by decide) fun h => hnotinf h.1,
        iff_of_false (by decide) fun h => hnotmem h.2.2,
        iff_of_true rfl ⟨hrx, hnotinf, hnotmem⟩⟩

/-- C7: after an idle timeout the engrave result is ok exactly when the
last observed status percentage is at least 50; 50 reports success, 30
reports failure, and no status at all reports failure. -/
theorem idle_timeout_heuristic :
    (∀ chunks, (engraveFinish chunks (.idleTimeout (some 50))).ok = true)
    ∧ (∀ chunks, (engraveFinish chunks (.idleTimeout (some 30))).ok = false)
    ∧ (∀ chunks, (engraveFinish chunks (.idleTimeout none)).ok = false)
    ∧ (∀ chunks p,
        (engraveFinish chunks (.idleTimeout (some p))).ok = true ↔ 50 ≤ p) := by
  refine ⟨fun chunks => rfl, fun chunks => rfl, fun chunks => rfl, ?_⟩
  intro chunks p
  simp only [engraveFinish]
  by_cases h : p ≠ 0 ∧ 50 ≤ p
  · rw [if_pos h]; simpa using h.2
  · rw [if_neg h]
    simp only [Bool.false_eq_true, false_iff]
    omega

/-- C5 counterexample: in a sequence holding two JOB_HEADER commands whose
width fields are 10 and 20 (added in that order), `get_bounds` decodes the
FIRST one (width 10), while the most recent JOB_HEADER would give width 20
— refuting the claim that the scan picks the most recent command. -/
theorem get_bounds_not_most_recent :
    (((CommandSequence.empty.add
          ⟨0x23, build_job_header_custom 10 10 1000 100 0 0 0 0 0 0 5 6 1, 10⟩).add
          ⟨0x23, build_job_header_custom 20 20 1000 100 0 0 0 0 0 0 5 6 1, 10⟩).get_bounds).map
        Bounds.width = some 10
    ∧ (get_bounds_most_recent
        ((CommandSequence.empty.add
          ⟨0x23, build_job_header_custom 10 10 1000 100 0 0 0 0 0 0 5 6 1, 10⟩).add
          ⟨0x23, build_job_header_custom 20 20 1000 100 0 0 0 0 0 0 5 6 1, 10⟩)).map
        Bounds.width = some 20 := by
  decide

/-- C5 amended: `get_bounds` decodes width (payload bytes 6-7), height
(8-9), center_x (32-33) and center_y (34-35) as big-endian 16-bit fields —
together with the derived min/max envelope — from the FIRST (earliest)
JOB_HEADER command whose payload has at least 36 bytes, and returns the
empty result when no JOB_HEADER command is present. -/
theorem get_bounds_decodes_first_job_header :
    (∀ (s : CommandSequence) (pre post : List K6Command) (c : K6Command),
      s.commands = pre ++ c :: post →
      (∀ c2 ∈ pre, ¬(c2.opcode = JOB_HEADER_OPCODE ∧ 36 ≤ c2.payload.length)) →
      c.opcode = JOB_HEADER_OPCODE → 36 ≤ c.payload.length →
      ∃ b, s.get_bounds = some b
        ∧ b.width = c.payload.getD 6 0 <<< 8 ||| c.payload.getD 7 0
        ∧ b.height = c.payload.getD 8 0 <<< 8 ||| c.payload.getD 9 0
        ∧ b.center_x = c.payload.getD 32 0 <<< 8 ||| c.payload.getD 33 0
        ∧ b.center_y = c.payload.getD 34 0 <<< 8 ||| c.payload.getD 35 0
        ∧ b.min_x = (b.center_x : Int) - (b.width / 2 : Nat)
        ∧ b.max_x = (b.center_x : Int) + (b.width / 2 : Nat)
        ∧ b.min_y = (b.center_y : Int) - (b.height / 2 : Nat)
        ∧ b.max_y = (b.center_y : Int) + (b.height / 2 : Nat))
    ∧ (∀ s : CommandSequence,
        (∀ c ∈ s.commands, c.opcode ≠ JOB_HEADER_OPCODE) →
        s.get_bounds = none) := by
  constructor
  · intro s pre post c hs hpre hc hlen
    refine ⟨decodeJobHeaderBounds c.payload, ?_, rfl, rfl, rfl, rfl,
      rfl, rfl, rfl, rfl⟩
    unfold CommandSequence.get_bounds
    rw [hs, findSome?_append_none _ pre _ (fun x hx => if_neg (hpre x hx))]
    simp only [List.findSome?_cons, if_pos (And.intro hc hlen)]
  · intro s hnone
    unfold CommandSequence.get_bounds
    refine List.findSome?_eq_none_iff.mpr ?_
    intro x hx
    exact if_neg fun hcon => hnone x hx hcon.1

/-- C8: with dry_run set and the transfer complete, engrave returns ok with
the total chunk count, never invokes the completion watcher, and writes no
INIT (0x24) frame to the transport. -/
theorem dry_run_skips_finalize (env : Env) (pixels : List (List Nat))
    (power depth : Nat) (cx cy : Option Nat) (n : Nat)
    (hsend : ∀ i, env.sendOk i = true)
    (hw : (pixels.headD []).length ≤ 1600) (hh : pixels.length ≤ 1600)
    (hburn : (burn_payload env.chunkOk 3 (pixels.map packRow)).2 = .ok n) :
    (engraveTransport env true pixels power depth cx cy).2
        = .ok ⟨true, 0, totalChunks (pixels.map packRow)⟩
    ∧ Ev.wait ∉ (engraveTransport env true pixels power depth cx cy).1
    ∧ ∀ p, Ev.write p ∈ (engraveTransport env true pixels power depth cx cy).1
        → p.headD 0 ≠ 0x24 := by
  have hn := burn_payload_ok_total env.chunkOk 3 (by omega) hburn
  have he := engrave_dry_run env pixels power depth cx cy n hsend hw hh hburn
  have hbev : ∀ e ∈ (burn_payload env.chunkOk 3 (pixels.map packRow)).1,
      (∃ p, e = Ev.write (dataPacketCore p)) ∨ ∃ q, e = Ev.sleep q :=
    fun e hev => runChunks_events env.chunkOk 3
      (chunksWithMeta (pixels.map packRow)) 0 0 e hev
  refine ⟨?_, ?_, ?_⟩
  · rw [he, ← hn]
  · rw [he]
    intro hmem
    rcases List.mem_append.mp hmem with h4 | hb
    · simp at h4
    · rcases hbev Ev.wait hb with ⟨p, hp⟩ | ⟨q, hq⟩
      · exact Ev.noConfusion hp
      · exact Ev.noConfusion hq
  · intro p hp
    rw [he] at hp
    rcases List.mem_append.mp hp with h4 | hb
    · simp only [List.mem_cons, List.not_mem_nil, or_false] at h4
      rcases h4 with h | h | h | h
      · rw [show p = FRAMING_FRAME from Ev.write.inj h]; decide
      · rw [show p = build_job_header_raster (pixels.headD []).length
            pixels.length depth power cx cy from Ev.write.inj h]
        rw [show (build_job_header_raster (pixels.headD []).length
            pixels.length depth power cx cy).headD 0 = 0x23 from rfl]
        decide
      · rw [show p = CONNECT_FRAME from Ev.write.inj h]; decide
      · rw [show p = CONNECT_FRAME from Ev.write.inj h]; decide
    · rcases hbev (Ev.write p) hb with ⟨c, hc⟩ | ⟨q, hq⟩
      · rw [show p = dataPacketCore c from Ev.write.inj hc]
        rw [show (dataPacketCore c).headD 0 = 0x22 from rfl]
        decide
      · exact Ev.noConfusion hq

/-- Witness for C8 at a 1 x 8 all-black image against an accepting device. -/
theorem dry_run_skips_finalize_witness :
    (∀ i, envTrue.sendOk i = true)
    ∧ (([[0, 0, 0, 0, 0, 0, 0, 0]] : List (List Nat)).headD []).length ≤ 1600
    ∧ ([[0, 0, 0, 0, 0, 0, 0, 0]] : List (List Nat)).length ≤ 1600
    ∧ (burn_payload envTrue.chunkOk 3
        (([[0, 0, 0, 0, 0, 0, 0, 0]] : List (List Nat)).map packRow)).2 = .ok 1
    ∧ ((engraveTransport envTrue true [[0, 0, 0, 0, 0, 0, 0, 0]]
          1000 100 none none).2
        = .ok ⟨true, 0,
            totalChunks (([[0, 0, 0, 0, 0, 0, 0, 0]] : List (List Nat)).map
              packRow)⟩
      ∧ Ev.wait ∉ (engraveTransport envTrue true [[0, 0, 0, 0, 0, 0, 0, 0]]
          1000 100 none none).1
      ∧ ∀ p, Ev.write p ∈ (engraveTransport envTrue true
          [[0, 0, 0, 0, 0, 0, 0, 0]] 1000 100 none none).1
          → p.headD 0 ≠ 0x24) :=
  ⟨fun _ => rfl, by decide, by decide, by decide,
    dry_run_skips_finalize envTrue [[0, 0, 0, 0, 0, 0, 0, 0]] 1000 100
      none none 1 (fun _ => rfl) (by decide) (by decide) (by decide)⟩

/-- C9 amended: an image whose width or height exceeds the limit this
driver enforces — 1600 x 1600, the bound of its own size check — makes
engrave raise the ValueError before anything is written: the transport
trace is empty. -/
theorem oversize_raises_before_write (env : Env) (dryRun : Bool)
    (pixels : List (List Nat)) (power depth : Nat) (cx cy : Option Nat)
    (h : 1600 < (pixels.headD []).length ∨ 1600 < pixels.length) :
    engraveTransport env dryRun pixels power depth cx cy
      = ([], .error (.valueError (pixels.headD []).length pixels.length)) := by
  unfold engraveTransport
  rw [if_pos h]

/-- Witness for C9 (amended) at a 0 x 1601 image. -/
theorem oversize_raises_before_write_witness :
    (1600 < ((List.replicate 1601 ([] : List Nat)).headD []).length
      ∨ 1600 < (List.replicate 1601 ([] : List Nat)).length)
    ∧ engraveTransport envTrue false (List.replicate 1601 []) 1000 100
        none none
      = ([], .error (.valueError
          ((List.replicate 1601 ([] : List Nat)).headD []).length
          (List.replicate 1601 ([] : List Nat)).length)) :=
  ⟨Or.inr (by rw [List.length_replicate]; omega),
    oversize_raises_before_write envTrue false (List.replicate 1601 [])
      1000 100 none none (Or.inr (by rw [List.length_replicate]; omega))⟩

/-- C9 counterexample: an 8 x 1521 image exceeds the 1600 x 1520 limit the
claim names for the latest revision, yet this driver raises nothing — its
check is 1600 x 1600 — and the first thing on the transport is the FRAMING
frame, with the engrave completing normally. -/
theorem oversize_claim_counterexample :
    1520 < (List.replicate 1521 (List.replicate 8 255) : List (List Nat)).length
    ∧ (engraveTransport envTrue true
        (List.replicate 1521 (List.replicate 8 255)) 1000 100
        none none).1.headD .wait = .write FRAMING_FRAME
    ∧ (engraveTransport envTrue true
        (List.replicate 1521 (List.replicate 8 255)) 1000 100
        none none).2 = .ok ⟨true, 0, 1521⟩ := by
  have hpix : ((List.replicate 1521 (List.replicate 8 255) :
      List (List Nat)).headD []).length = 8 := by
    rw [show (1521 : Nat) = 1520 + 1 from rfl, List.replicate_succ]
    rw [List.headD_cons, List.length_replicate]
  have hlen : (List.replicate 1521 (List.replicate 8 255) :
      List (List Nat)).length = 1521 := by rw [List.length_replicate]
  have hmap : (List.replicate 1521 (List.replicate 8 255) :
      List (List Nat)).map packRow = List.replicate 1521 [0] := by
    rw [List.map_replicate, show packRow (List.replicate 8 255) = [0]
      from by decide]
  have hburn : (burn_payload envTrue.chunkOk 3
      ((List.replicate 1521 (List.replicate 8 255) :
        List (List Nat)).map packRow)).2 = .ok 1521 := by
    rw [hmap]
    unfold burn_payload
    rw [runChunks_all_ok envTrue.chunkOk 3 (by omega) (fun _ _ => rfl)
      (chunksWithMeta (List.replicate 1521 [0])) 0 0
      (chunksWithMeta_chunk_le _)]
    simp only [Nat.zero_add]
    rw [chunksWithMeta_length]
    unfold totalChunks
    rw [List.map_replicate]
    rw [show (([0] : List Nat).length + DATA_CHUNK - 1) / DATA_CHUNK = 1
      from by simp [DATA_CHUNK]]
    rw [List.sum_replicate]
    simp
  have he := engrave_dry_run envTrue
    (List.replicate 1521 (List.replicate 8 255)) 1000 100 none none 1521
    (fun _ => rfl) (by rw [hpix]; omega) (by rw [hlen]; omega) hburn
  refine ⟨by rw [hlen]; omega, ?_, ?_⟩
  · rw [he]
    rfl
  · rw [he]

/-- C10: the stats dict invariant — total commands, total bytes and DATA
chunk count agree with the command list — holds for the empty sequence and
is preserved by every `add`. -/
theorem stats_invariant :
    statsInv CommandSequence.empty
    ∧ (∀ (s : CommandSequence) (c : K6Command),
        statsInv s → statsInv (s.add c))
    ∧ (∀ cs : List K6Command,
        statsInv (cs.foldl CommandSequence.add CommandSequence.empty)) := by
  have hadd : ∀ (s : CommandSequence) (c : K6Command),
      statsInv s → statsInv (s.add c) := by
    rintro s c ⟨h1, h2, h3⟩
    refine ⟨?_, ?_, ?_⟩
    · simp [CommandSequence.add, h1]
    · simp [CommandSequence.add, h2]
    · simp only [CommandSequence.add, h3, List.countP_append]
      by_cases hc : c.opcode = DATA_OPCODE
      · simp [List.countP_cons, hc]
      · simp [List.countP_cons, hc]
  have hempty : statsInv CommandSequence.empty := by
    refine ⟨rfl, rfl, rfl⟩
  refine ⟨hempty, hadd, ?_⟩
  intro cs
  suffices hgen : ∀ (cs : List K6Command) (s : CommandSequence), statsInv s →
      statsInv (cs.foldl CommandSequence.add s) from hgen cs _ hempty
  intro cs
  induction cs with
  | nil => intro s hs; exact hs
  | cons c cs ih => intro s hs; exact ih _ (hadd s c hs)

end K6
